import Mathlib

/-!
Shallow embedding of the makeshop image downloader's core pipeline
(`src/main.ts`): identifier normalization, URL-pattern substitution into the
sample URL, the batch split of the `check-images` handler, page-image
resolution (suffix derivation in `checkProductImages`), the download worker
(`downloadImage` with its cancellation checkpoints and filename-collision
loop), and the progress traces of the checking and downloading stages.
-/

namespace Makeshop

/-- JS `raw.replace(/"/g, '')` from the `check-images` handler: remove every
double-quote character of the raw cell value. -/
def stripQuotes (s : String) : String :=
  String.mk (s.data.filter (fun c => !(c == '\"')))

/-- JS `s.padStart(n, c)`: left-pad to length `n` with `c`; a string already
at least `n` long is returned unchanged. -/
def padStart (s : String) (n : Nat) (c : Char) : String :=
  String.mk (List.replicate (n - s.data.length) c ++ s.data)

/-- The `cleanProductId`/`paddedProductId` computation of the `check-images`
handler: strip quotes, then left-pad with `0` to 12 characters. -/
def normalizeProductId (raw : String) : String :=
  padStart (stripQuotes raw) 12 '0'

/-- Scanner for JS `s.replace(/\d{12}/, repl)`: at the leftmost position where
12 consecutive ASCII digits start, splice in `repl` and keep the rest. -/
def replace12Go (repl : List Char) : List Char → List Char
  | [] => []
  | c :: cs =>
    if (((c :: cs).take 12).length = 12 && ((c :: cs).take 12).all Char.isDigit) then
      repl ++ (c :: cs).drop 12
    else
      c :: replace12Go repl cs

/-- JS `sampleUrl.replace(/\d{12}/, '{productId}')`: replace the first run of
12 consecutive digits of the sample URL. -/
def replace12 (s repl : String) : String :=
  String.mk (replace12Go repl.data s.data)

/-- `leadsWith p cs` is true when `p` is an initial segment of `cs`. -/
def leadsWith : List Char → List Char → Bool
  | [], _ => true
  | _ :: _, [] => false
  | p :: ps, c :: cs => p == c && leadsWith ps cs

/-- Scanner for JS `s.replace(pat, repl)` with a plain-string pattern:
replace the first occurrence of `pat` only. -/
def replaceOnceGo (pat repl : List Char) : List Char → List Char
  | [] => []
  | c :: cs =>
    if leadsWith pat (c :: cs) then
      repl ++ (c :: cs).drop pat.length
    else
      c :: replaceOnceGo pat repl cs

/-- JS `urlPattern.replace('{productId}', paddedProductId)`. -/
def replaceOnce (s pat repl : String) : String :=
  String.mk (replaceOnceGo pat.data repl.data s.data)

/-- A CSV row as parsed by the caller: an association list from header name to
cell value (JS object with string values). -/
abbrev Row := List (String × String)

/-- JS `row[field]` for a string-keyed object: the value of the first entry
with the given key, if any. -/
def rowGet (r : Row) (k : String) : Option String :=
  match r.find? (fun p => p.1 == k) with
  | some p => some p.2
  | none => none

/-- JS truthiness of `row[field]` for string-valued cells: the key is present
and its value is non-empty (the `rows.filter(row => row[field])` test). -/
def cellTruthy (r : Row) (k : String) : Bool :=
  match rowGet r k with
  | some v => !(v == "")
  | none => false

/-- `Object.keys(rows[0] || {})` of the `check-images` handler: the header set
is computed from the first row only. -/
def headersOf (rows : List Row) : List String :=
  (rows.headD []).map Prod.fst

/-- A work item of the checking stage: `{url, productId}`. -/
structure Product where
  url : String
  productId : String
deriving DecidableEq, Repr

/-- The message of the error thrown when the configured field is missing. -/
def notFoundMsg (field : String) : String :=
  "Product ID field \x22" ++ field ++ "\x22 not found in CSV"

/-- Pure front of the `check-images` handler (`src/main.ts` lines 300-322):
validate the configured identifier field against the first row's header set
(throwing before any further work when absent), derive the URL pattern from
the sample URL, drop rows with a falsy identifier cell, and build the work
list of normalized products. -/
def checkImagesPrep (rows : List Row) (sampleUrl field : String) :
    Except String (List Product) :=
  if (headersOf rows).contains field then
    let urlPattern := replace12 sampleUrl "{productId}"
    Except.ok ((rows.filter (fun r => cellTruthy r field)).map (fun r =>
      let padded := normalizeProductId ((rowGet r field).getD "")
      { url := replaceOnce urlPattern "{productId}" padded, productId := padded }))
  else
    Except.error (notFoundMsg field)

/-- The fixed pool size of the `check-images` handler. -/
def CONCURRENT_BROWSERS : Nat := 4

/-- The batch split of the `check-images` handler (`src/main.ts` lines
352-361): `batchSize = ceil(total / c)` and slice `i` is
`products.slice(i*batchSize, min((i+1)*batchSize, total))`. -/
def batchesOf {α : Type} (l : List α) (c : Nat) : List (List α) :=
  (List.range c).map
    (fun i => (l.drop (i * ((l.length + c - 1) / c))).take ((l.length + c - 1) / c))

theorem stringMkData (s : String) : String.mk s.data = s := by
  cases s
  rfl

theorem batches17_flatten {α : Type} (l : List α) (h : l.length = 17) :
    l.take 5 ++ ((l.drop 5).take 5 ++ ((l.drop 10).take 5 ++ (l.drop 15).take 5)) = l := by
  have h1 : (l.drop 5).drop 5 = l.drop 10 := by
    rw [List.drop_drop]
  have h2 : (l.drop 10).drop 5 = l.drop 15 := by
    rw [List.drop_drop]
  rw [← h2, ← List.take_add, ← h1, ← List.take_add, ← List.take_add]
  exact List.take_of_length_le (by omega)

/-- Claim C1 (amended): for every work list of size 17 at concurrency 4, the
batch split produces contiguous slices of sizes 5, 5, 5, 2 (ceil-based batch
size 5, the last slice holding only the remainder), and concatenating the
slices in slice order then intra-slice order reconstructs the original list
with each element exactly once. -/
theorem claim1_batch_split_17 {α : Type} (l : List α) (h : l.length = 17) :
    (batchesOf l 4).map List.length = [5, 5, 5, 2] ∧ (batchesOf l 4).flatten = l := by
  have hb : (l.length + 4 - 1) / 4 = 5 := by omega
  have hr : List.range 4 = [0, 1, 2, 3] := rfl
  constructor
  · unfold batchesOf
    rw [hb, hr]
    simp [List.length_take, List.length_drop, h]
  · unfold batchesOf
    rw [hb, hr]
    simp only [List.map_cons, List.map_nil, List.flatten]
    norm_num
    exact batches17_flatten l h

/-- Claim C1 counterexample: at size 17 and concurrency 4 the slice sizes are
`[5, 5, 5, 2]`, not the `[5, 4, 4, 4]` stated by the spec. -/
theorem claim1_counterexample :
    (batchesOf (List.range 17) 4).map List.length = [5, 5, 5, 2] ∧
    (batchesOf (List.range 17) 4).map List.length ≠ [5, 4, 4, 4] := by
  constructor
  · decide
  · decide

theorem claim1_witness :
    (List.range 17).length = 17 ∧
    ((batchesOf (List.range 17) 4).map List.length = [5, 5, 5, 2] ∧
      (batchesOf (List.range 17) 4).flatten = List.range 17) :=
  ⟨by decide, claim1_batch_split_17 (List.range 17) (by decide)⟩

/-- Claim C6 (amended): identifier normalization is idempotent — an
already-12-digit identifier is returned unchanged — and the raw cell value
`"123"` normalizes to `"000000000123"` for the 12-digit target. -/
theorem claim6_normalization :
    (∀ s : String, s.data.length = 12 → (∀ c ∈ s.data, c.isDigit = true) →
      normalizeProductId s = s)
    ∧ normalizeProductId "123" = "000000000123" := by
  constructor
  · intro s hlen hdig
    have hq : s.data.filter (fun c => !(c == '\x22')) = s.data := by
      rw [List.filter_eq_self]
      intro c hc
      have hd := hdig c hc
      cases hcq : (c == '\x22') with
      | true =>
        have hc' : c = '\x22' := eq_of_beq hcq
        subst hc'
        exact absurd hd (by decide)
      | false => rfl
    have h1 : stripQuotes s = s := by
      unfold stripQuotes
      rw [hq]
    unfold normalizeProductId
    rw [h1]
    unfold padStart
    rw [hlen]
    norm_num
  · rfl

/-- Claim C6 counterexample: normalizing `"123"` yields the 12-character
string `"000000000123"`, not the 10-character `"0000000123"` stated by the
spec. -/
theorem claim6_counterexample :
    normalizeProductId "123" = "000000000123" ∧
    ("000000000123" : String) ≠ "0000000123" := by
  constructor
  · rfl
  · decide

theorem claim6_witness :
    ("000000000099" : String).data.length = 12 ∧
    (∀ c ∈ ("000000000099" : String).data, c.isDigit = true) ∧
    normalizeProductId "000000000099" = "000000000099" :=
  ⟨by decide, by decide, claim6_normalization.1 "000000000099" (by decide) (by decide)⟩

/-- Claim C7: for rows `[{"id":"1"},{"id":"2"}]`, the sample URL
`https://shop.example/item/000000000099` and identifier field `"id"`, the
prep step produces exactly two work items with identifiers `"000000000001"`
and `"000000000002"`, whose URLs are the sample URL with its 12-digit run
replaced by the respective padded identifier. -/
theorem claim7_end_to_end :
    checkImagesPrep [[("id", "1")], [("id", "2")]]
        "https://shop.example/item/000000000099" "id"
      = Except.ok
          [⟨"https://shop.example/item/000000000001", "000000000001"⟩,
           ⟨"https://shop.example/item/000000000002", "000000000002"⟩]
    ∧ ("https://shop.example/item/000000000001" : String)
        = replace12 "https://shop.example/item/000000000099" "000000000001"
    ∧ ("https://shop.example/item/000000000002" : String)
        = replace12 "https://shop.example/item/000000000099" "000000000002" := by
  refine ⟨by rfl, by rfl, by rfl⟩

/-- Claim C9: the prep step fails with the field-not-found error exactly when
the configured field is absent from the (first-row) header set, the failure
is produced by the pure validation before any work list is built, and a row
whose identifier cell is falsy is silently dropped — inserting such a row
changes neither the outcome nor the produced work items. -/
theorem claim9_field_validation (rows : List Row) (url field : String) :
    ((∃ e, checkImagesPrep rows url field = Except.error e)
        ↔ (headersOf rows).contains field = false)
    ∧ ((headersOf rows).contains field = false →
        checkImagesPrep rows url field = Except.error (notFoundMsg field))
    ∧ (∀ rows1 rows2 (row : Row), rows1 ≠ [] → cellTruthy row field = false →
        checkImagesPrep (rows1 ++ row :: rows2) url field
          = checkImagesPrep (rows1 ++ rows2) url field) := by
  refine ⟨?_, ?_, ?_⟩
  · cases hcf : (headersOf rows).contains field with
    | true =>
      have hm : field ∈ headersOf rows := by simpa using hcf
      simp [checkImagesPrep, hm, hcf]
    | false =>
      have hm : field ∉ headersOf rows := by simpa using hcf
      simp [checkImagesPrep, hm, hcf]
  · intro hcf
    have hm : field ∉ headersOf rows := by simpa using hcf
    simp [checkImagesPrep, hm]
  · intro rows1 rows2 row h1 hcell
    have hh : headersOf (rows1 ++ row :: rows2) = headersOf (rows1 ++ rows2) := by
      cases rows1 with
      | nil => exact absurd rfl h1
      | cons a as => rfl
    have hfil : (rows1 ++ row :: rows2).filter (fun r => cellTruthy r field)
        = (rows1 ++ rows2).filter (fun r => cellTruthy r field) := by
      simp [List.filter_append, List.filter_cons, hcell]
    unfold checkImagesPrep
    rw [hh, hfil]

theorem claim9_witness :
    ([[("id", "1")]] : List Row) ≠ [] ∧
    cellTruthy [("id", "")] "id" = false ∧
    checkImagesPrep ([[("id", "1")]] ++ [("id", "")] :: []) "u" "id"
      = checkImagesPrep ([[("id", "1")]] ++ []) "u" "id" :=
  ⟨by decide, by decide,
    (claim9_field_validation [] "u" "id").2.2 [[("id", "1")]] [] [("id", "")]
      (by decide) (by decide)⟩

/-- Claim C10: with an empty rows list the header set is empty, so the prep
step throws the field-not-found error for every identifier field name — an
empty input is never a successful empty run. -/
theorem claim10_empty_rows (url field : String) :
    checkImagesPrep [] url field = Except.error (notFoundMsg field) := rfl

/-- An `ImageUrl` descriptor (`src/types/index.ts`): a resolved image with
its owning product id and disambiguating suffix. -/
structure ImageUrl where
  url : String
  productId : String
  suffix : String
deriving DecidableEq, Repr

/-- JS `\w`: ASCII letter, digit or underscore. -/
def wordChar (c : Char) : Bool := c.isAlpha || c.isDigit || c == '_'

/-- One attempt of the regex `` `${productId}(?:_(\w+))?\.jpg` `` at a fixed
start position: `some (some cap)` is a match whose group captured `cap`,
`some none` a match without the optional group participating, `none` no
match at this position. The optional group is tried greedily: `_`, then a
maximal nonempty run of word characters, then a literal `.jpg`; because `.`
is not a word character, no shorter run of `\w+` can be followed by `.jpg`,
so the maximal run is the only candidate. -/
def jsMatchAt (pid : List Char) (cs : List Char) : Option (Option String) :=
  if leadsWith pid cs then
    let rest := cs.drop pid.length
    let withGroup : Option String :=
      match rest with
      | '_' :: rest2 =>
        let run := rest2.span wordChar
        if run.1.isEmpty then none
        else if leadsWith ['.', 'j', 'p', 'g'] run.2 then some (String.mk run.1) else none
      | _ => none
    match withGroup with
    | some cap => some (some cap)
    | none => if leadsWith ['.', 'j', 'p', 'g'] rest then some none else none
  else none

/-- JS `imgSrc.match(regex)` for the suffix regex: the leftmost matching
position wins. -/
def jsSearch (pid : List Char) : List Char → Option (Option String)
  | [] => jsMatchAt pid []
  | c :: cs =>
    match jsMatchAt pid (c :: cs) with
    | some r => some r
    | none => jsSearch pid cs

/-- Suffix derivation of `checkProductImages` (`src/main.ts` lines 78-85):
the capture of the first regex match when its group participated
(`match && match[1]`), otherwise the element's positional index,
stringified. -/
def deriveSuffix (pid src : String) (idx : Nat) : String :=
  match jsSearch pid.data src.data with
  | some (some cap) => cap
  | _ => Nat.repr idx

/-- JS `s.includes(sub)`. -/
def containsSubGo (sub : List Char) : List Char → Bool
  | [] => leadsWith sub []
  | c :: cs => leadsWith sub (c :: cs) || containsSubGo sub cs

/-- JS `imgSrc.includes(productId)`. -/
def containsSub (s sub : String) : Bool := containsSubGo sub.data s.data

/-- The per-element loop of `checkProductImages` (`src/main.ts` lines 73-92):
walk the extracted `src` attributes with their positional indices, discard
missing sources and sources not containing the product id, and emit one
descriptor per survivor with the derived suffix. -/
def checkProductImages (pid : String) : Nat → List (Option String) → List ImageUrl
  | _, [] => []
  | idx, osrc :: rest =>
    match osrc with
    | none => checkProductImages pid (idx + 1) rest
    | some src =>
      if containsSub src pid then
        ⟨src, pid, deriveSuffix pid src idx⟩ :: checkProductImages pid (idx + 1) rest
      else
        checkProductImages pid (idx + 1) rest

/-- One full resolve call over the page's matched image elements. -/
def resolveImages (pid : String) (urls : List (Option String)) : List ImageUrl :=
  checkProductImages pid 0 urls

/-- Declarative description of one resolve call, following the spec: the
surviving URLs in input order, each paired with its positional index and
given the capture-or-index suffix. -/
def survivingDescriptors (pid : String) (urls : List (Option String)) : List ImageUrl :=
  urls.enum.filterMap (fun p =>
    match p.2 with
    | none => none
    | some src =>
      if containsSub src pid then some ⟨src, pid, deriveSuffix pid src p.1⟩ else none)

theorem checkProductImages_enumFrom (pid : String) (urls : List (Option String)) :
    ∀ n, checkProductImages pid n urls
      = (urls.enumFrom n).filterMap (fun p =>
          match p.2 with
          | none => none
          | some src =>
            if containsSub src pid then some ⟨src, pid, deriveSuffix pid src p.1⟩ else none) := by
  induction urls with
  | nil => intro n; rfl
  | cons o rest ih =>
    intro n
    cases o with
    | none => simp [checkProductImages, List.enumFrom, ih]
    | some src =>
      cases hc : containsSub src pid with
      | true => simp [checkProductImages, List.enumFrom, hc, ih]
      | false => simp [checkProductImages, List.enumFrom, hc, ih]

/-- Claim C8 (amended): each surviving image URL's descriptor carries as
suffix the regex capture of the token between the identifier and the `.jpg`
extension, or, failing a participating capture, the element's positional
index stringified; descriptors are produced in input (element) order. The
suffixes of one resolve call are not guaranteed distinct. -/
theorem claim8_suffix_rule (pid : String) (urls : List (Option String)) :
    resolveImages pid urls = survivingDescriptors pid urls :=
  checkProductImages_enumFrom pid urls 0

/-- Claim C8 counterexample: two matched elements with the identical source
`p_1.jpg` both receive the captured suffix `"1"`, so descriptors of one
resolve call do not receive pairwise distinct suffixes. -/
theorem claim8_counterexample :
    (resolveImages "p" [some "p_1.jpg", some "p_1.jpg"]).map ImageUrl.suffix = ["1", "1"]
    ∧ ¬ ((resolveImages "p" [some "p_1.jpg", some "p_1.jpg"]).map ImageUrl.suffix).Nodup := by
  constructor
  · rfl
  · decide

/-- `path.join(a, b)` for the two-segment joins used by `downloadImage`. -/
def pathJoin (a b : String) : String := a ++ "/" ++ b

/-- The candidate file path of iteration `k` of the collision loop in
`downloadImage` (`src/main.ts` lines 120-130): iteration `0` uses the
original suffix, iteration `k ≥ 1` uses `` `${suffix}_${k}` ``. -/
def candidatePath (pf pid suffix : String) (k : Nat) : String :=
  if k = 0 then pathJoin pf (pid ++ "_" ++ suffix ++ ".jpg")
  else pathJoin pf (pid ++ "_" ++ suffix ++ "_" ++ Nat.repr k ++ ".jpg")

/-- The collision loop with explicit fuel: starting at iteration `k`, return
the first candidate path that `fileExists` rejects. The candidates for
distinct `k` are distinct paths, so among the first `fs.length + 1`
candidates at least one is free and the fuel used by `resolvePath` never
runs out; the fuel-exhausted branch (returning the current candidate) is
unreachable in a real run. -/
def resolveLoopGo (fs : List String) (pf pid suffix : String) : Nat → Nat → String
  | 0, k => candidatePath pf pid suffix k
  | fuel + 1, k =>
    if fs.contains (candidatePath pf pid suffix k) then
      resolveLoopGo fs pf pid suffix fuel (k + 1)
    else
      candidatePath pf pid suffix k

/-- The unique target path computed by the collision loop of
`downloadImage`, with the file system modelled as the list of existing file
paths. -/
def resolvePath (fs : List String) (pf pid suffix : String) : String :=
  resolveLoopGo fs pf pid suffix (fs.length + 1) 0

theorem two_le_length_of_mem {α : Type} {a b : α} {l : List α}
    (ha : a ∈ l) (hb : b ∈ l) (hne : a ≠ b) : 2 ≤ l.length := by
  induction l with
  | nil => cases ha
  | cons x t ih =>
    rcases List.mem_cons.mp ha with ha' | ha'
    · rcases List.mem_cons.mp hb with hb' | hb'
      · exact absurd (ha'.trans hb'.symm) hne
      · have := List.length_pos.mpr (List.ne_nil_of_mem hb')
        simp only [List.length_cons]
        omega
    · have := List.length_pos.mpr (List.ne_nil_of_mem ha')
      simp only [List.length_cons]
      omega

theorem pathJoin_right_ne (pf a b : String) (h : a.data ≠ b.data) :
    pathJoin pf a ≠ pathJoin pf b := by
  intro hEq
  have h' := congrArg String.data hEq
  unfold pathJoin at h'
  rw [String.data_append, String.data_append] at h'
  exact absurd (List.append_cancel_left h') h

/-- Claim C5 (amended): in a destination folder holding `p_0.jpg` and
`p_0_1.jpg` but not `p_0_2.jpg`, the collision loop for the next descriptor
with identifier `p` and suffix `0` resolves the target path to `p_0_2.jpg`
(appending `_1`, `_2`, … to the original suffix until an unused path is
found). -/
theorem claim5_collision (fs : List String) (pf : String)
    (h0 : fs.contains (pathJoin pf "p_0.jpg") = true)
    (h1 : fs.contains (pathJoin pf "p_0_1.jpg") = true)
    (h2 : fs.contains (pathJoin pf "p_0_2.jpg") = false) :
    resolvePath fs pf "p" "0" = pathJoin pf "p_0_2.jpg" := by
  have e0 : candidatePath pf "p" "0" 0 = pathJoin pf "p_0.jpg" := rfl
  have e1 : candidatePath pf "p" "0" 1 = pathJoin pf "p_0_1.jpg" := rfl
  have e2 : candidatePath pf "p" "0" 2 = pathJoin pf "p_0_2.jpg" := rfl
  have h0m : pathJoin pf "p_0.jpg" ∈ fs := by simpa using h0
  have h1m : pathJoin pf "p_0_1.jpg" ∈ fs := by simpa using h1
  have hne : pathJoin pf "p_0.jpg" ≠ pathJoin pf "p_0_1.jpg" :=
    pathJoin_right_ne pf "p_0.jpg" "p_0_1.jpg" (by decide)
  have hlen : 2 ≤ fs.length := two_le_length_of_mem h0m h1m hne
  obtain ⟨m, hm⟩ : ∃ m, fs.length + 1 = m + 3 := ⟨fs.length - 2, by omega⟩
  unfold resolvePath
  rw [hm]
  calc resolveLoopGo fs pf "p" "0" (m + 3) 0
      = if fs.contains (candidatePath pf "p" "0" 0) then
          resolveLoopGo fs pf "p" "0" (m + 2) 1
        else candidatePath pf "p" "0" 0 := rfl
    _ = resolveLoopGo fs pf "p" "0" (m + 2) 1 := by rw [e0, h0]; simp
    _ = if fs.contains (candidatePath pf "p" "0" 1) then
          resolveLoopGo fs pf "p" "0" (m + 1) 2
        else candidatePath pf "p" "0" 1 := rfl
    _ = resolveLoopGo fs pf "p" "0" (m + 1) 2 := by rw [e1, h1]; simp
    _ = if fs.contains (candidatePath pf "p" "0" 2) then
          resolveLoopGo fs pf "p" "0" m 3
        else candidatePath pf "p" "0" 2 := rfl
    _ = pathJoin pf "p_0_2.jpg" := by rw [e2, h2]; simp

/-- Claim C5 counterexample: a destination folder in which `p_0.jpg` and
`p_0_1.jpg` exist but which also holds `p_0_2.jpg` resolves the descriptor
`(p, 0)` to `p_0_3.jpg`, not `p_0_2.jpg`, refuting the claim as universally
stated. -/
theorem claim5_counterexample :
    resolvePath [pathJoin "d" "p_0.jpg", pathJoin "d" "p_0_1.jpg", pathJoin "d" "p_0_2.jpg"]
        "d" "p" "0" = pathJoin "d" "p_0_3.jpg"
    ∧ resolvePath [pathJoin "d" "p_0.jpg", pathJoin "d" "p_0_1.jpg", pathJoin "d" "p_0_2.jpg"]
        "d" "p" "0" ≠ pathJoin "d" "p_0_2.jpg" := by
  constructor
  · decide
  · decide

theorem claim5_witness :
    (["d/p_0.jpg", "d/p_0_1.jpg"] : List String).contains (pathJoin "d" "p_0.jpg") = true
    ∧ (["d/p_0.jpg", "d/p_0_1.jpg"] : List String).contains (pathJoin "d" "p_0_1.jpg") = true
    ∧ (["d/p_0.jpg", "d/p_0_1.jpg"] : List String).contains (pathJoin "d" "p_0_2.jpg") = false
    ∧ resolvePath ["d/p_0.jpg", "d/p_0_1.jpg"] "d" "p" "0" = pathJoin "d" "p_0_2.jpg" :=
  ⟨by decide, by decide, by decide,
    claim5_collision ["d/p_0.jpg", "d/p_0_1.jpg"] "d" (by decide) (by decide) (by decide)⟩

/-- Behaviour of the fetch inside `downloadImage`: the navigation may throw
(network failure), return no response, return a response with no data, or
deliver the bytes. -/
inductive FetchOutcome
  | thrown
  | noResponse
  | emptyBody
  | ok
deriving DecidableEq, Repr

/-- Environment of one `downloadImage` call: how each fallible effect inside
its `try` block behaves. -/
structure DlEnv where
  mkdirThrows : Bool
  fetch : FetchOutcome
  writeThrows : Bool
deriving DecidableEq, Repr

/-- Externally visible I/O attempted by one `downloadImage` call. -/
inductive IOAct
  | mkdirA (p : String)
  | fetchA (u : String)
  | writeA (p : String)
deriving DecidableEq, Repr

/-- Outcome of one `downloadImage` call: the boolean the function returns,
the file system afterwards, and the I/O it attempted. -/
structure DlResult where
  success : Bool
  fs : List String
  acts : List IOAct
deriving DecidableEq, Repr

/-- `downloadImage` (`src/main.ts` lines 101-167). `c1`, `c2`, `c3` are the
values the shared cancellation flag has at the three checkpoints (before any
I/O, before the network fetch, before the file write). Every failure inside
the `try` block — a thrown `mkdir`, a thrown navigation, a missing response,
an empty body, a thrown write — is caught by the surrounding catch (or
returned directly) as `false`; nothing escapes the call. -/
def downloadImage (c1 c2 c3 : Bool) (env : DlEnv) (img : ImageUrl)
    (domainFolderPath : String) (fs : List String) : DlResult :=
  if c1 then ⟨false, fs, []⟩
  else
    let pf := pathJoin domainFolderPath img.productId
    if env.mkdirThrows then ⟨false, fs, [IOAct.mkdirA pf]⟩
    else
      let fp := resolvePath fs pf img.productId img.suffix
      if c2 then ⟨false, fs, [IOAct.mkdirA pf]⟩
      else
        match env.fetch with
        | FetchOutcome.thrown => ⟨false, fs, [IOAct.mkdirA pf, IOAct.fetchA img.url]⟩
        | FetchOutcome.noResponse => ⟨false, fs, [IOAct.mkdirA pf, IOAct.fetchA img.url]⟩
        | FetchOutcome.emptyBody => ⟨false, fs, [IOAct.mkdirA pf, IOAct.fetchA img.url]⟩
        | FetchOutcome.ok =>
          if c3 then ⟨false, fs, [IOAct.mkdirA pf, IOAct.fetchA img.url]⟩
          else if env.writeThrows then
            ⟨false, fs, [IOAct.mkdirA pf, IOAct.fetchA img.url, IOAct.writeA fp]⟩
          else
            ⟨true, fp :: fs, [IOAct.mkdirA pf, IOAct.fetchA img.url, IOAct.writeA fp]⟩

/-- Value of the shared cancellation flag while item `i` of a batch runs:
`cancelFrom = some k` models the caller setting the flag once exactly `k`
items have finished, so the items at positions `k, k+1, …` observe it at
every checkpoint; `none` models a run that is never cancelled. -/
def flagAt (cancelFrom : Option Nat) (i : Nat) : Bool :=
  match cancelFrom with
  | none => false
  | some k => decide (k ≤ i)

/-- `processImageBatch` (`src/main.ts` lines 170-203): process the slice
strictly sequentially, never letting one item's failure stop the loop; count
an item into `processedImages` only when its download succeeded; after every
item emit one progress event whose `current` is
`startIndex + processedImages`. Returns the per-item results, the final file
system, and the emitted `current` values in emission order. -/
def processImageBatchGo (cancelFrom : Option Nat) (folder : String)
    (startIndex : Nat) :
    Nat → Nat → List String → List (DlEnv × ImageUrl) →
      List DlResult × List String × List Nat
  | _, _, fs, [] => ([], fs, [])
  | i, processed, fs, item :: rest =>
    let c := flagAt cancelFrom i
    let r := downloadImage c c c item.1 item.2 folder fs
    let p := if r.success then processed + 1 else processed
    let t := processImageBatchGo cancelFrom folder startIndex (i + 1) p r.fs rest
    (r :: t.1, t.2.1, (startIndex + p) :: t.2.2)

/-- One full `processImageBatch` run over a slice. -/
def processImageBatch (cancelFrom : Option Nat) (folder : String)
    (startIndex : Nat) (fs : List String) (items : List (DlEnv × ImageUrl)) :
    List DlResult × List String × List Nat :=
  processImageBatchGo cancelFrom folder startIndex 0 0 fs items

theorem processImageBatchGo_lengths (cf : Option Nat) (folder : String)
    (startIndex : Nat) (items : List (DlEnv × ImageUrl)) :
    ∀ (i p : Nat) (fs : List String),
      ((processImageBatchGo cf folder startIndex i p fs items).1).length = items.length
      ∧ ((processImageBatchGo cf folder startIndex i p fs items).2.2).length = items.length := by
  induction items with
  | nil => intro i p fs; exact ⟨rfl, rfl⟩
  | cons item rest ih =>
    intro i p fs
    simp only [processImageBatchGo, List.length_cons]
    constructor
    · rw [(ih _ _ _).1]
    · rw [(ih _ _ _).2]

/-- Claim C3: for every image descriptor and destination folder the download
worker returns `false` on network failure (a thrown navigation or a missing
response), on an empty body, and on a filesystem failure (a thrown `mkdir`
or a thrown write); each such failure is absorbed inside the call as a
returned outcome rather than an escaping exception, and a batch always
yields one result and one progress event per item regardless of failures,
so no single item's failure aborts the batch containing it. -/
theorem claim3_worker_failures (c1 c2 c3 : Bool) (env : DlEnv) (img : ImageUrl)
    (folder : String) (fs : List String) :
    (env.fetch = FetchOutcome.thrown →
      (downloadImage c1 c2 c3 env img folder fs).success = false)
    ∧ (env.fetch = FetchOutcome.noResponse →
      (downloadImage c1 c2 c3 env img folder fs).success = false)
    ∧ (env.fetch = FetchOutcome.emptyBody →
      (downloadImage c1 c2 c3 env img folder fs).success = false)
    ∧ (env.mkdirThrows = true →
      (downloadImage c1 c2 c3 env img folder fs).success = false)
    ∧ (env.writeThrows = true →
      (downloadImage c1 c2 c3 env img folder fs).success = false)
    ∧ (∀ (cancelFrom : Option Nat) (startIndex : Nat)
          (items : List (DlEnv × ImageUrl)),
        ((processImageBatch cancelFrom folder startIndex fs items).1).length
            = items.length
        ∧ ((processImageBatch cancelFrom folder startIndex fs items).2.2).length
            = items.length) := by
  obtain ⟨mk, f, w⟩ := env
  refine ⟨?_, ?_, ?_, ?_, ?_, ?_⟩
  · intro h
    cases h
    cases c1 <;> cases mk <;> cases c2 <;> simp [downloadImage]
  · intro h
    cases h
    cases c1 <;> cases mk <;> cases c2 <;> simp [downloadImage]
  · intro h
    cases h
    cases c1 <;> cases mk <;> cases c2 <;> simp [downloadImage]
  · intro h
    cases h
    cases c1 <;> simp [downloadImage]
  · intro h
    cases h
    cases c1 <;> cases mk <;> cases c2 <;> cases f <;> cases c3 <;> simp [downloadImage]
  · intro cancelFrom startIndex items
    exact processImageBatchGo_lengths cancelFrom folder startIndex items 0 0 fs

theorem claim3_witness :
    (⟨false, FetchOutcome.noResponse, false⟩ : DlEnv).fetch = FetchOutcome.noResponse
    ∧ (downloadImage false false false ⟨false, FetchOutcome.noResponse, false⟩
        ⟨"u", "p", "0"⟩ "d" []).success = false :=
  ⟨rfl,
    (claim3_worker_failures false false false ⟨false, FetchOutcome.noResponse, false⟩
      ⟨"u", "p", "0"⟩ "d" []).2.1 rfl⟩

theorem cancelledRun (folder : String) (start k : Nat)
    (items : List (DlEnv × ImageUrl)) :
    ∀ (i p : Nat) (fs : List String), k ≤ i →
      processImageBatchGo (some k) folder start i p fs items
        = (items.map (fun _ => (⟨false, fs, []⟩ : DlResult)), fs,
            items.map (fun _ => start + p)) := by
  induction items with
  | nil => intro i p fs _; rfl
  | cons item rest ih =>
    intro i p fs hik
    have hf : flagAt (some k) i = true := by simp [flagAt]; omega
    simp only [processImageBatchGo, hf, List.map_cons]
    have hr : downloadImage true true true item.1 item.2 folder fs
        = ⟨false, fs, []⟩ := rfl
    rw [hr]
    simp [ih (i + 1) p fs (by omega)]

theorem processImageBatchGo_cancel (folder : String) (start k : Nat)
    (items : List (DlEnv × ImageUrl)) :
    ∀ (i p : Nat) (fs : List String),
      (∀ res ∈ ((processImageBatchGo (some k) folder start i p fs items).1).drop (k - i),
        res.success = false ∧ res.acts = [])
      ∧ (processImageBatchGo (some k) folder start i p fs items).2.1
          = (processImageBatchGo none folder start i p fs (items.take (k - i))).2.1 := by
  induction items with
  | nil =>
    intro i p fs
    constructor
    · intro res hres
      simp [processImageBatchGo] at hres
    · simp [processImageBatchGo]
  | cons item rest ih =>
    intro i p fs
    by_cases hik : k ≤ i
    · have hki : k - i = 0 := by omega
      rw [hki, cancelledRun folder start k (item :: rest) i p fs hik]
      constructor
      · intro res hres
        simp only [List.drop_zero, List.mem_map] at hres
        obtain ⟨_, _, hres⟩ := hres
        rw [← hres]
        exact ⟨rfl, rfl⟩
      · simp [processImageBatchGo]
    · have hf : flagAt (some k) i = false := by simp [flagAt]; omega
      have hfn : flagAt none i = false := rfl
      have hki : k - i = (k - (i + 1)) + 1 := by omega
      rw [hki, List.take_succ_cons]
      simp only [processImageBatchGo, hf, hfn, List.drop_succ_cons]
      exact ih (i + 1) _ _

/-- `downloadImage` never deletes or overwrites an existing file: every file
present beforehand is present afterwards. -/
theorem downloadImage_fs_mono (c1 c2 c3 : Bool) (env : DlEnv) (img : ImageUrl)
    (folder : String) (fs : List String) :
    ∀ f ∈ fs, f ∈ (downloadImage c1 c2 c3 env img folder fs).fs := by
  intro f hf
  obtain ⟨mk, fe, w⟩ := env
  cases c1 <;> cases mk <;> cases c2 <;> cases fe <;> cases c3 <;> cases w <;>
    simp [downloadImage, hf]

theorem processImageBatchGo_fs_mono (cf : Option Nat) (folder : String)
    (start : Nat) (items : List (DlEnv × ImageUrl)) :
    ∀ (i p : Nat) (fs : List String) (f : String), f ∈ fs →
      f ∈ (processImageBatchGo cf folder start i p fs items).2.1 := by
  induction items with
  | nil => intro i p fs f hf; exact hf
  | cons item rest ih =>
    intro i p fs f hf
    simp only [processImageBatchGo]
    exact ih _ _ _ _ (downloadImage_fs_mono _ _ _ _ _ folder fs f hf)

/-- Claim C4: a download that observes the cancellation flag at its first
checkpoint returns a failure outcome with the file system untouched and no
I/O performed; when the flag is set after exactly `k` items of a batch have
finished, every not-yet-started download reports failure with no I/O (in
particular zero bytes written), the final file system equals the one
produced by the uncancelled prefix of `k` downloads, and every file present
before the batch is still present afterwards. -/
theorem claim4_cancellation (folder : String) (start k : Nat) (fs : List String)
    (items : List (DlEnv × ImageUrl)) :
    (∀ (c2 c3 : Bool) (env : DlEnv) (img : ImageUrl) (fs' : List String),
        downloadImage true c2 c3 env img folder fs' = ⟨false, fs', []⟩)
    ∧ (∀ res ∈ ((processImageBatch (some k) folder start fs items).1).drop k,
        res.success = false ∧ res.acts = [])
    ∧ (processImageBatch (some k) folder start fs items).2.1
        = (processImageBatch none folder start fs (items.take k)).2.1
    ∧ (∀ f ∈ fs, f ∈ (processImageBatch (some k) folder start fs items).2.1) := by
  refine ⟨fun c2 c3 env img fs' => rfl, ?_, ?_, ?_⟩
  · exact (processImageBatchGo_cancel folder start k items 0 0 fs).1
  · exact (processImageBatchGo_cancel folder start k items 0 0 fs).2
  · intro f hf
    exact processImageBatchGo_fs_mono (some k) folder start items 0 0 fs f hf

/-- One scheduling step of the checking stage: context `n` (when it exists
and still has items) atomically processes its next item, yielding the item's
success flag and the updated contexts; `none` when the entry is a no-op. -/
def stepCtx : List (List Bool) → Nat → Option (Bool × List (List Bool))
  | [], _ => none
  | l :: ls, 0 =>
    match l with
    | [] => none
    | b :: bs => some (b, bs :: ls)
  | l :: ls, n + 1 =>
    match stepCtx ls n with
    | none => none
    | some r => some (r.1, l :: r.2)

/-- The interleaved checking stage (`src/main.ts` lines 364-388): each
context works through its slice of items in order; each item increments the
shared counter `processedProducts` once, and emits a progress event with the
new counter value exactly when `checkProductImages` succeeded (on a thrown
check the catch increments without emitting). Increment and emission are one
atomic block of the single-threaded event loop, so a schedule — the order in
which the contexts perform their per-item blocks — captures every possible
completion order. Returns the remaining slices, the final counter, and the
emitted `current` values in emission order. -/
def runSched : List Nat → List (List Bool) → Nat → List (List Bool) × Nat × List Nat
  | [], ctxs, c => (ctxs, c, [])
  | n :: rest, ctxs, c =>
    match stepCtx ctxs n with
    | none => runSched rest ctxs c
    | some (ok, ctxs') =>
      let t := runSched rest ctxs' (c + 1)
      (t.1, t.2.1, (cond ok [c + 1] []) ++ t.2.2)

/-- Items remaining across all contexts. -/
def totalItems (ctxs : List (List Bool)) : Nat := (ctxs.map List.length).sum

/-- The full sequence of `current` values emitted during the checking stage:
the initial `current = 0` event, the per-item events, and the final
`current = totalProducts` event sent after `Promise.all` resolves
(`src/main.ts` lines 328-334 and 390-397). -/
def checkingTrace (sched : List Nat) (slices : List (List Bool)) : List Nat :=
  0 :: ((runSched sched slices 0).2.2 ++ [totalItems slices])

theorem stepCtx_totalItems :
    ∀ (ctxs : List (List Bool)) (n : Nat) (b : Bool) (ctxs' : List (List Bool)),
      stepCtx ctxs n = some (b, ctxs') → totalItems ctxs = totalItems ctxs' + 1 := by
  intro ctxs
  induction ctxs with
  | nil => intro n b c' h; cases h
  | cons l ls ih =>
    intro n b c' h
    cases n with
    | zero =>
      cases l with
      | nil => cases h
      | cons x xs =>
        simp only [stepCtx, Option.some.injEq, Prod.mk.injEq] at h
        rw [← h.2]
        simp [totalItems]
        omega
    | succ m =>
      cases hs : stepCtx ls m with
      | none => simp [stepCtx, hs] at h
      | some r =>
        simp only [stepCtx, hs, Option.some.injEq, Prod.mk.injEq] at h
        rw [← h.2]
        have hr : stepCtx ls m = some (r.1, r.2) := by rw [hs]
        have := ih m r.1 r.2 hr
        simp only [totalItems, List.map_cons, List.sum_cons] at *
        omega

theorem runSched_counter :
    ∀ (sched : List Nat) (ctxs : List (List Bool)) (c : Nat),
      (runSched sched ctxs c).2.1 + totalItems (runSched sched ctxs c).1
        = c + totalItems ctxs := by
  intro sched
  induction sched with
  | nil => intro ctxs c; simp [runSched]
  | cons n rest ih =>
    intro ctxs c
    cases hs : stepCtx ctxs n with
    | none => simp [runSched, hs, ih]
    | some r =>
      obtain ⟨ok, ctxs'⟩ := r
      simp only [runSched, hs]
      have h1 := ih ctxs' (c + 1)
      have h2 := stepCtx_totalItems ctxs n ok ctxs' hs
      omega

theorem runSched_emits :
    ∀ (sched : List Nat) (ctxs : List (List Bool)) (c : Nat),
      List.Chain' (· < ·) (runSched sched ctxs c).2.2
      ∧ (∀ e ∈ (runSched sched ctxs c).2.2, c < e ∧ e ≤ (runSched sched ctxs c).2.1)
      ∧ c ≤ (runSched sched ctxs c).2.1 := by
  intro sched
  induction sched with
  | nil =>
    intro ctxs c
    refine ⟨List.chain'_nil, ?_, le_refl c⟩
    intro e he
    cases he
  | cons n rest ih =>
    intro ctxs c
    cases hs : stepCtx ctxs n with
    | none => simpa [runSched, hs] using ih ctxs c
    | some r =>
      obtain ⟨ok, ctxs'⟩ := r
      obtain ⟨ihC, ihE, ihc⟩ := ih ctxs' (c + 1)
      cases ok with
      | false =>
        simp only [runSched, hs, Bool.cond_false, List.nil_append]
        refine ⟨ihC, ?_, by omega⟩
        intro e he
        exact ⟨by have := (ihE e he).1; omega, (ihE e he).2⟩
      | true =>
        simp only [runSched, hs, Bool.cond_true, List.singleton_append]
        refine ⟨?_, ?_, by omega⟩
        · rw [List.chain'_cons']
          refine ⟨?_, ihC⟩
          intro y hy
          exact (ihE y (List.mem_of_mem_head? hy)).1
        · intro e he
          rcases List.mem_cons.mp he with he' | he'
          · subst he'
            exact ⟨by omega, ihc⟩
          · exact ⟨by have := (ihE e he').1; omega, (ihE e he').2⟩

theorem batchTrace_chain (cf : Option Nat) (folder : String) (start : Nat)
    (items : List (DlEnv × ImageUrl)) :
    ∀ (i p : Nat) (fs : List String),
      List.Chain' (· ≤ ·) ((processImageBatchGo cf folder start i p fs items).2.2)
      ∧ (∀ e ∈ (processImageBatchGo cf folder start i p fs items).2.2,
          start + p ≤ e) := by
  induction items with
  | nil =>
    intro i p fs
    exact ⟨List.chain'_nil, fun e he => by cases he⟩
  | cons item rest ih =>
    intro i p fs
    simp only [processImageBatchGo]
    obtain ⟨ihC, ihE⟩ := ih (i + 1)
      (if (downloadImage (flagAt cf i) (flagAt cf i) (flagAt cf i)
            item.1 item.2 folder fs).success then p + 1 else p)
      (downloadImage (flagAt cf i) (flagAt cf i) (flagAt cf i)
        item.1 item.2 folder fs).fs
    constructor
    · rw [List.chain'_cons']
      refine ⟨?_, ihC⟩
      intro y hy
      exact ihE y (List.mem_of_mem_head? hy)
    · intro e he
      rcases List.mem_cons.mp he with he' | he'
      · subst he'
        have : p ≤ (if (downloadImage (flagAt cf i) (flagAt cf i) (flagAt cf i)
            item.1 item.2 folder fs).success then p + 1 else p) := by
          split <;> omega
        omega
      · have := ihE e he'
        have hp : p ≤ (if (downloadImage (flagAt cf i) (flagAt cf i) (flagAt cf i)
            item.1 item.2 folder fs).success then p + 1 else p) := by
          split <;> omega
        omega

/-- Claim C2 (amended): within the checking stage the emitted `current`
values are monotonically non-decreasing for every completion order across
the concurrent contexts, and the stage's last event carries
`current = total`. Within the downloading stage each context's events are
also non-decreasing, but `current` counts only successful downloads above
the slice's `startIndex`, so the last event of a slice equals
`startIndex + successes` and falls short of `total` when a download fails. -/
theorem claim2_progress (slices : List (List Bool)) (sched : List Nat)
    (hdone : totalItems (runSched sched slices 0).1 = 0)
    (folder : String) (startIndex : Nat) (fs : List String)
    (items : List (DlEnv × ImageUrl)) :
    List.Chain' (· ≤ ·) (checkingTrace sched slices)
    ∧ (checkingTrace sched slices).getLast? = some (totalItems slices)
    ∧ List.Chain' (· ≤ ·) ((processImageBatch none folder startIndex fs items).2.2) := by
  have hA := runSched_counter sched slices 0
  have hcount : (runSched sched slices 0).2.1 = totalItems slices := by omega
  obtain ⟨hC, hE, _⟩ := runSched_emits sched slices 0
  refine ⟨?_, ?_, (batchTrace_chain none folder startIndex items 0 0 fs).1⟩
  · rw [checkingTrace, List.chain'_cons']
    refine ⟨fun y _ => Nat.zero_le y, ?_⟩
    rw [List.chain'_append]
    refine ⟨hC.imp (fun a b h => le_of_lt h), List.chain'_singleton _, ?_⟩
    intro x hx y hy
    have hx' := hE x (List.mem_of_mem_getLast? hx)
    have hy' : y = totalItems slices := by
      simp only [List.head?_cons, Option.mem_def, Option.some.injEq] at hy
      exact hy.symm
    omega
  · rw [checkingTrace]
    have : (0 :: ((runSched sched slices 0).2.2 ++ [totalItems slices]))
        = (0 :: (runSched sched slices 0).2.2) ++ [totalItems slices] := by
      simp
    rw [this, List.getLast?_concat]

/-- Claim C2 counterexample: a downloading-stage slice of one item whose
fetch yields no response emits exactly one event with `current = 0`, so the
last event of the stage carries `0`, not the stage total `1`. -/
theorem claim2_counterexample :
    (processImageBatch none "d" 0 []
        [(⟨false, FetchOutcome.noResponse, false⟩, ⟨"u", "p", "0"⟩)]).2.2 = [0]
    ∧ ((processImageBatch none "d" 0 []
        [(⟨false, FetchOutcome.noResponse, false⟩, ⟨"u", "p", "0"⟩)]).2.2).getLast?
        = some 0
    ∧ ([(⟨false, FetchOutcome.noResponse, false⟩,
        (⟨"u", "p", "0"⟩ : ImageUrl))] : List (DlEnv × ImageUrl)).length = 1
    ∧ (0 : Nat) ≠ 1 := by
  refine ⟨by decide, by decide, by decide, by decide⟩

theorem claim2_witness :
    totalItems (runSched [0, 1, 1] [[true], [false, true]] 0).1 = 0
    ∧ (List.Chain' (· ≤ ·) (checkingTrace [0, 1, 1] [[true], [false, true]])
        ∧ (checkingTrace [0, 1, 1] [[true], [false, true]]).getLast?
            = some (totalItems [[true], [false, true]])
        ∧ List.Chain' (· ≤ ·) ((processImageBatch none "d" 5 []
            [(⟨false, FetchOutcome.ok, false⟩, ⟨"u", "p", "0"⟩)]).2.2)) :=
  ⟨by decide,
    claim2_progress [[true], [false, true]] [0, 1, 1] (by decide) "d" 5 []
      [(⟨false, FetchOutcome.ok, false⟩, ⟨"u", "p", "0"⟩)]⟩

theorem claim4_witness :
    (⟨false, ["d/p/p_0.jpg"], []⟩ : DlResult)
        ∈ ((processImageBatch (some 1) "d" 0 []
            [(⟨false, FetchOutcome.ok, false⟩, ⟨"u1", "p", "0"⟩),
             (⟨false, FetchOutcome.ok, false⟩, ⟨"u2", "p", "1"⟩)]).1).drop 1
    ∧ (false = false ∧ ([] : List IOAct) = []) :=
  ⟨by decide,
    (claim4_cancellation "d" 0 1 []
      [(⟨false, FetchOutcome.ok, false⟩, ⟨"u1", "p", "0"⟩),
       (⟨false, FetchOutcome.ok, false⟩, ⟨"u2", "p", "1"⟩)]).2.1
      ⟨false, ["d/p/p_0.jpg"], []⟩ (by decide)⟩

end Makeshop
